import Mathlib

/-!
Verification of the CKR-Lang core pipeline (src/ckr_lang/core.py): lexer
cleaning, tokenization, parsing and the fetch-decode-execute evaluator.
Source text is modelled as `List Char`, tokens as `String`, machine integers
as `Int` (Python integers are unbounded), and the character output stream as
the list of emitted Unicode code points (`List Nat`).
-/

/-- The error kinds of the interpreter: `markerError` models CKRSyntaxError
(raised only by clean_code for marker problems); the rest model the
CKRRuntimeError sub-causes, distinguished by their message in the source. -/
inductive CKRErr where
  | markerError : CKRErr
  | constantError (name : String) : CKRErr
  | undefinedVariable (name : String) : CKRErr
  | missingLabel (name : String) : CKRErr
  | unknownCommand (cmd : String) : CKRErr
deriving DecidableEq

instance {ε α : Type} [DecidableEq ε] [DecidableEq α] : DecidableEq (Except ε α) := fun
  | .error a, .error b =>
    if h : a = b then .isTrue (by rw [h]) else .isFalse (by intro he; cases he; exact h rfl)
  | .error _, .ok _ => .isFalse (by intro he; cases he)
  | .ok _, .error _ => .isFalse (by intro he; cases he)
  | .ok a, .ok b =>
    if h : a = b then .isTrue (by rw [h]) else .isFalse (by intro he; cases he; exact h rfl)

/-- The straight double-quote character (code point 34). -/
def dquoteChar : Char := Char.ofNat 34

/-- The straight single-quote character (code point 39). -/
def squoteChar : Char := Char.ofNat 39

/-- Remainder of the list after the first occurrence of `q`, if any. -/
def findSplit (q : Char) : List Char → Option (List Char)
  | [] => none
  | c :: rest => if c = q then some rest else findSplit q rest

theorem findSplit_length (q : Char) (l r : List Char)
    (h : findSplit q l = some r) : r.length < l.length := by
  induction l generalizing r with
  | nil => simp [findSplit] at h
  | cons c cs ih =>
    simp only [findSplit] at h
    split at h
    · cases h
      simp
    · have := ih _ h
      simp only [List.length_cons]
      omega

/-- Python `re.sub` removal of quoted spans, mirroring the regex
alternation used in clean_code: at each position, a double quote paired
with the next double quote (or a single quote paired with the next single
quote) deletes the enclosed span; an unmatched quote character is kept. -/
def removeQuotes : List Char → List Char
  | [] => []
  | c :: rest =>
    if c = dquoteChar then
      match h : findSplit dquoteChar rest with
      | some after => removeQuotes after
      | none => c :: removeQuotes rest
    else if c = squoteChar then
      match h : findSplit squoteChar rest with
      | some after => removeQuotes after
      | none => c :: removeQuotes rest
    else c :: removeQuotes rest
termination_by l => l.length
decreasing_by
  all_goals simp only [List.length_cons]
  · have := findSplit_length _ _ _ h
    omega
  · omega
  · have := findSplit_length _ _ _ h
    omega
  · omega
  · omega

/-- Index of the first occurrence of `pat` as a contiguous sublist,
modelling Python str.index. -/
def strIndex (pat : List Char) : List Char → Option Nat
  | [] => if pat.isPrefixOf ([] : List Char) then some 0 else none
  | c :: rest =>
    if pat.isPrefixOf (c :: rest) then some 0
    else (strIndex pat rest).map (· + 1)

/-- Whether `pat` occurs as a contiguous sublist, modelling Python `in`. -/
def containsSub (pat l : List Char) : Bool :=
  (strIndex pat l).isSome

def START_MARKER : List Char := "흑백요리사2 히든백수저 최강록".data

def END_MARKER : List Char := "백수저 최강록 우승".data

/-- Marker extraction step of clean_code: find the start marker, the end
marker, and slice the text strictly between them; missing markers and a
start slice beginning at or after the end marker raise the syntax error. -/
def markerExtract (nc : List Char) : Except CKRErr (List Char) :=
  match strIndex START_MARKER nc with
  | none => .error .markerError
  | some i =>
    match strIndex END_MARKER nc with
    | none => .error .markerError
    | some j =>
      if j ≤ i + START_MARKER.length then .error .markerError
      else .ok ((nc.drop (i + START_MARKER.length)).take (j - (i + START_MARKER.length)))

/-- CKRLexer.clean_code: quote removal over the full raw text, then marker
extraction. -/
def clean_code (raw : List Char) : Except CKRErr (List Char) :=
  markerExtract (removeQuotes raw)

/-- Intra-line whitespace recognized by Python str.split. We model lines as
the segments between newline characters, so a line never holds a newline. -/
def isSpaceChar (c : Char) : Bool :=
  c == ' ' || c == '\t' || c == '\r'

/-- Python str.split with no argument: maximal runs of non-whitespace
characters, leading/trailing/repeated whitespace ignored. `acc` holds the
characters of the word in progress, reversed. -/
def wsSplitAux (acc : List Char) : List Char → List String
  | [] => if acc = [] then [] else [String.mk acc.reverse]
  | c :: rest =>
    if isSpaceChar c then
      if acc = [] then wsSplitAux [] rest
      else String.mk acc.reverse :: wsSplitAux [] rest
    else wsSplitAux (c :: acc) rest

def wsSplit (l : List Char) : List String := wsSplitAux [] l

/-- Split a character list at every occurrence of `sep`. -/
def splitOnChar (sep : Char) : List Char → List (List Char)
  | [] => [[]]
  | c :: rest =>
    if c = sep then [] :: splitOnChar sep rest
    else
      match splitOnChar sep rest with
      | [] => [[c]]
      | h :: t => (c :: h) :: t

/-- Python str.splitlines restricted to the newline character. The source
then strips each line and drops blank lines before splitting on
whitespace; under `wsSplit` both steps are identities, so they are
absorbed here. -/
def splitLines (l : List Char) : List (List Char) := splitOnChar '\n' l

def SUFFIX_KEYWORDS : List String := ["조려", "조린다", "조리고", "앙", "을", "조림핑"]

def isSuffixKw (t : String) : Bool := SUFFIX_KEYWORDS.contains t

def PREFIX_KEYWORD : String := "나야"

/-- The token-grouping loop of CKRLexer.tokenize over one line's tokens,
carrying the accumulation buffer: a suffix keyword closes the buffer as a
group; the prefix keyword flushes a non-empty buffer and opens a new one;
an ordinary token followed by a suffix keyword closes an in-progress
prefix-keyword buffer first; the non-empty buffer is flushed at line end. -/
def tokLine : List String → List String → List (List String)
  | buffer, [] => if buffer = [] then [] else [buffer]
  | buffer, t :: rest =>
    if isSuffixKw t then (buffer ++ [t]) :: tokLine [] rest
    else if t = PREFIX_KEYWORD then
      if buffer = [] then tokLine [t] rest
      else buffer :: tokLine [t] rest
    else
      match rest.head? with
      | some nt =>
        if isSuffixKw nt then
          if buffer.head? = some PREFIX_KEYWORD then buffer :: tokLine [t] rest
          else tokLine (buffer ++ [t]) rest
        else tokLine (buffer ++ [t]) rest
      | none => tokLine (buffer ++ [t]) rest

/-- Instruction-token groups of the cleaned core text, in order, across all
lines. -/
def tokenizeGroups (core : List Char) : List (List String) :=
  ((splitLines core).map (fun line => tokLine [] (wsSplit line))).flatten

/-- CKRLexer.tokenize: clean, then group each line's tokens. -/
def tokenize (raw : List Char) : Except CKRErr (List (List String)) :=
  (clean_code raw).map tokenizeGroups

/-- Python str.replace with empty replacement: delete every non-overlapping
occurrence of `pat`, scanning left to right. `fuel` bounds the recursion
and is instantiated with the list length, which suffices because every
step consumes at least one character. -/
def removeAllSubF (pat : List Char) : Nat → List Char → List Char
  | _, [] => []
  | 0, l => l
  | fuel + 1, c :: rest =>
    if pat ≠ [] ∧ pat.isPrefixOf (c :: rest) then
      removeAllSubF pat fuel ((c :: rest).drop pat.length)
    else c :: removeAllSubF pat fuel rest

def removeAllSub (pat l : List Char) : List Char := removeAllSubF pat l.length l

/-- Whitespace removed by Python str.strip at either end of a token. -/
def isStripSpace (c : Char) : Bool :=
  c == ' ' || c == '\t' || c == '\n' || c == '\r'

def stripChars (l : List Char) : List Char :=
  ((l.dropWhile isStripSpace).reverse.dropWhile isStripSpace).reverse

/-- Python " ".join over tokens, producing the joined character list. -/
def joinSpace : List String → List Char
  | [] => []
  | [s] => s.data
  | s :: rest => s.data ++ ' ' :: joinSpace rest

/-- An instruction record: the reconstructed source line and its tokens. -/
structure Inst where
  line : String
  tokens : List String
deriving DecidableEq

/-- The label-definition marker recognized as a prefix of a group's first
token. -/
def labelMark : List Char := "연쇄조림마".data

/-- CKRParser.parse: label-marker groups record the current instruction
count under the stripped remainder of the first token (later definitions
shadow earlier ones via the cons-front label list); other non-empty groups
append an instruction. -/
def parseAux : List (List String) → List Inst → List (String × Nat) → List Inst × List (String × Nat)
  | [], insts, labels => (insts, labels)
  | g :: rest, insts, labels =>
    match g with
    | [] => parseAux rest insts labels
    | t0 :: _ =>
      if labelMark.isPrefixOf t0.data then
        parseAux rest insts ((String.mk (stripChars (removeAllSub labelMark t0.data)), insts.length) :: labels)
      else
        parseAux rest (insts ++ [⟨String.mk (joinSpace g), g⟩]) labels

def parse (groups : List (List String)) : List Inst × List (String × Nat) :=
  parseAux groups [] []

/-- The frozen constant table. -/
def CONSTANTS (name : String) : Option Int :=
  if name = "부들부들" then some 0
  else if name = "뾰족뾰족" then some (-1)
  else if name = "폭신폭신" then some 1
  else none

/-- The mutable variable store; assignments cons, lookup takes the most
recent binding, so membership distinguishes written from unwritten names. -/
def lookupVar (vars : List (String × Int)) (name : String) : Option Int :=
  (vars.find? (fun p => p.1 = name)).map (fun p => p.2)

def setVar (vars : List (String × Int)) (name : String) (v : Int) : List (String × Int) :=
  (name, v) :: vars

/-- The defaultdict read used by the in-place update operators: an absent
name reads as 0. -/
def getDefault (vars : List (String × Int)) (name : String) : Int :=
  (lookupVar vars name).getD 0

/-- CKREvaluator.get_val: constants first, then the store by membership;
an unwritten non-constant name is the undefined-variable error. -/
def get_val (vars : List (String × Int)) (name : String) : Except CKRErr Int :=
  match CONSTANTS name with
  | some v => .ok v
  | none =>
    match lookupVar vars name with
    | some v => .ok v
    | none => .error (.undefinedVariable name)

/-- CKREvaluator.parse_subjects: split the joined operand chunk on commas,
strip each piece, drop empties. -/
def parse_subjects (chunk : List Char) : List String :=
  if chunk = [] then []
  else (((splitOnChar ',' chunk).map stripChars).filter (fun l => l ≠ [])).map String.mk

/-- The label table lookup (labels are consed at definition time, so the
first match is the last definition). -/
def lookupLabel (labels : List (String × Nat)) (name : String) : Option Nat :=
  (labels.find? (fun p => p.1 = name)).map (fun p => p.2)

/-- Python chr(val) printed on success; chr raises ValueError outside
0..0x10FFFF (negatives included) and the handler prints the placeholder
code point 63 instead. -/
def chrOrPlaceholder (v : Int) : Nat :=
  if 0 ≤ v ∧ v ≤ 1114111 then v.toNat else 63

/-- The condition_met computation for a conditional jump, given the
comparator token and the resolved subject values. -/
def condMet (op : String) (values : List Int) : Bool :=
  match values with
  | [] => false
  | v0 :: vrest =>
    if op = "조림인간" then
      if vrest = [] then decide (v0 = 0)
      else (v0 :: vrest).all (fun v => decide (v = v0))
    else if op = "욕망의조림인간" then
      if vrest = [] then decide (0 < v0)
      else vrest.all (fun v => decide (v0 > v))
    else true

/-- Resolve every subject with get_val, stopping at the first failure,
mirroring the generator expressions and loops over get_val calls. -/
def mapME (f : String → Except CKRErr Int) : List String → Except CKRErr (List Int)
  | [] => .ok []
  | s :: rest =>
    match f s with
    | .error e => .error e
    | .ok v =>
      match mapME f rest with
      | .error e => .error e
      | .ok vs => .ok (v :: vs)

/-- Evaluator state: the variable store, the emitted code points, and the
program counter. -/
structure EvalState where
  vars : List (String × Int)
  output : List Nat
  pc : Nat
deriving DecidableEq

/-- Result of one instruction: success, or the raised error together with
the state at the raise point (partial mutations included, as the Python
evaluator object retains them). -/
inductive ExecResult where
  | ok (st : EvalState) : ExecResult
  | err (e : CKRErr) (st : EvalState) : ExecResult
deriving DecidableEq

/-- The declare (나야) loop: per subject, check mutability then write 0;
a constant subject raises with the store mutated so far. -/
def declareLoop (vars : List (String × Int)) : List String → Except (CKRErr × List (String × Int)) (List (String × Int))
  | [] => .ok vars
  | s :: rest =>
    if (CONSTANTS s).isSome then .error (.constantError s, vars)
    else declareLoop (setVar vars s 0) rest

/-- The negate (앙) loop: per subject, check mutability then write the
negation of the defaultdict read. -/
def negateLoop (vars : List (String × Int)) : List String → Except (CKRErr × List (String × Int)) (List (String × Int))
  | [] => .ok vars
  | s :: rest =>
    if (CONSTANTS s).isSome then .error (.constantError s, vars)
    else negateLoop (setVar vars s (-(getDefault vars s))) rest

/-- The print (을) loop: per subject, resolve with get_val then emit; a
failing read raises with the output emitted so far. -/
def printLoop (vars : List (String × Int)) (out : List Nat) : List String → Except (CKRErr × List Nat) (List Nat)
  | [] => .ok out
  | s :: rest =>
    match get_val vars s with
    | .error e => .error (e, out)
    | .ok v => printLoop vars (out ++ [chrOrPlaceholder v]) rest

/-- The non-jump operation dispatch on the command token and the parsed
subject list, mirroring the if/elif chain of CKREvaluator.run. -/
def execOp (cmd : String) (subjects : List String) (st : EvalState) : ExecResult :=
  if cmd = "나야" then
    match declareLoop st.vars subjects with
    | .error (e, vars) => .err e { st with vars := vars }
    | .ok vars => .ok { st with vars := vars, pc := st.pc + 1 }
  else if cmd = "조려" then
    match subjects with
    | [] => .ok { st with pc := st.pc + 1 }
    | target :: rest =>
      if (CONSTANTS target).isSome then .err (.constantError target) st
      else if rest = [] then
        .ok { st with vars := setVar st.vars target (getDefault st.vars target + 1), pc := st.pc + 1 }
      else
        match mapME (get_val st.vars) (target :: rest) with
        | .error e => .err e st
        | .ok values =>
          .ok { st with vars := setVar st.vars target (values.foldl (· + ·) 0), pc := st.pc + 1 }
  else if cmd = "조린다" then
    match subjects with
    | [] => .ok { st with pc := st.pc + 1 }
    | target :: rest =>
      if (CONSTANTS target).isSome then .err (.constantError target) st
      else if rest = [] then
        .ok { st with vars := setVar st.vars target (getDefault st.vars target - 1), pc := st.pc + 1 }
      else
        match get_val st.vars target with
        | .error e => .err e st
        | .ok first =>
          match mapME (get_val st.vars) rest with
          | .error e => .err e st
          | .ok others =>
            .ok { st with vars := setVar st.vars target (first - others.foldl (· + ·) 0), pc := st.pc + 1 }
  else if cmd = "조리고" then
    match subjects with
    | [] => .ok { st with pc := st.pc + 1 }
    | target :: rest =>
      if (CONSTANTS target).isSome then .err (.constantError target) st
      else if rest = [] then
        .ok { st with vars := setVar st.vars target (getDefault st.vars target * 2), pc := st.pc + 1 }
      else
        match mapME (get_val st.vars) (target :: rest) with
        | .error e => .err e st
        | .ok values =>
          .ok { st with vars := setVar st.vars target (values.foldl (· * ·) 1), pc := st.pc + 1 }
  else if cmd = "앙" then
    match negateLoop st.vars subjects with
    | .error (e, vars) => .err e { st with vars := vars }
    | .ok vars => .ok { st with vars := vars, pc := st.pc + 1 }
  else if cmd = "을" then
    match printLoop st.vars st.output subjects with
    | .error (e, out) => .err e { st with output := out }
    | .ok out => .ok { st with output := out, pc := st.pc + 1 }
  else .err (.unknownCommand cmd) st

/-- The condition computation of a conditional jump: when the
second-to-last token contains a comparator keyword, resolve the subjects
before it and evaluate the comparator; otherwise the jump is
unconditional (condition true). -/
def jumpCond (vars : List (String × Int)) (tokens : List String) : Except CKRErr Bool :=
  if 2 ≤ tokens.length ∧
      (containsSub "조림인간".data (tokens.getD (tokens.length - 2) "").data ∨
        containsSub "욕망의조림인간".data (tokens.getD (tokens.length - 2) "").data) then
    match mapME (get_val vars) (parse_subjects (joinSpace tokens.dropLast.dropLast)) with
    | .error e => .error e
    | .ok values => .ok (condMet (tokens.getD (tokens.length - 2) "") values)
  else .ok true

/-- Dispatch on the identified command: a command containing the jump
keyword is control flow (the target label is the command with the keyword
removed); everything else is an operation on the comma-parsed operand
chunk. -/
def execCmd (labels : List (String × Nat)) (tokens : List String) (cmd : String) (st : EvalState) : ExecResult :=
  if containsSub "조림핑".data cmd.data then
    match jumpCond st.vars tokens with
    | .error e => .err e st
    | .ok b =>
      if b then
        match lookupLabel labels (String.mk (removeAllSub "조림핑".data cmd.data)) with
        | none => .err (.missingLabel (String.mk (removeAllSub "조림핑".data cmd.data))) st
        | some k => .ok { st with pc := k }
      else .ok { st with pc := st.pc + 1 }
  else
    execOp cmd
      (if cmd = "나야" then parse_subjects (joinSpace (tokens.drop 1))
       else parse_subjects (joinSpace tokens.dropLast))
      st

/-- One iteration of CKREvaluator.run: the command is the prefix keyword
when it opens the instruction, else the last token. -/
def execInst (labels : List (String × Nat)) (inst : Inst) (st : EvalState) : ExecResult :=
  execCmd labels inst.tokens
    (if inst.tokens.headD "" = "나야" then "나야" else inst.tokens.getLastD "")
    st

/-- Outcome of the program-counter loop, carrying the final state. -/
inductive RunResult where
  | ok (st : EvalState) : RunResult
  | err (e : CKRErr) (st : EvalState) : RunResult
  | outOfFuel (st : EvalState) : RunResult
deriving DecidableEq

def RunResult.state : RunResult → EvalState
  | .ok st => st
  | .err _ st => st
  | .outOfFuel st => st

/-- The while loop of CKREvaluator.run, fuel-bounded since CKR programs
can loop forever: fetch at pc while pc is in range, stop when pc reaches
the instruction count. -/
def runFuel (insts : List Inst) (labels : List (String × Nat)) : Nat → EvalState → RunResult
  | 0, st => .outOfFuel st
  | fuel + 1, st =>
    if h : st.pc < insts.length then
      match execInst labels insts[st.pc] st with
      | .err e st' => .err e st'
      | .ok st' => runFuel insts labels fuel st'
    else .ok st

/-- CKREvaluator.run from a fresh evaluator: empty store, empty output,
pc 0. -/
def run (insts : List Inst) (labels : List (String × Nat)) (fuel : Nat) : RunResult :=
  runFuel insts labels fuel ⟨[], [], 0⟩

theorem removeQuotes_nil : removeQuotes [] = [] := by
  rw [removeQuotes.eq_def]

theorem removeQuotes_keep (c : Char) (l : List Char)
    (h1 : c ≠ dquoteChar) (h2 : c ≠ squoteChar) :
    removeQuotes (c :: l) = c :: removeQuotes l := by
  rw [removeQuotes.eq_def]
  simp [h1, h2]

theorem findSplit_append (q : Char) (l r : List Char) (h : q ∉ l) :
    findSplit q (l ++ q :: r) = some r := by
  induction l with
  | nil => simp [findSplit]
  | cons c cs ih =>
    simp only [List.mem_cons, not_or] at h
    simp only [List.cons_append, findSplit]
    rw [if_neg (fun he => h.1 (he.symm))]
    exact ih h.2

theorem removeQuotes_span (q : Char) (span post : List Char)
    (hq : q = dquoteChar ∨ q = squoteChar) (hspan : q ∉ span) :
    removeQuotes (q :: (span ++ q :: post)) = removeQuotes post := by
  have hfs := findSplit_append q span post hspan
  rcases hq with h | h <;> subst h
  · rw [removeQuotes.eq_def]
    dsimp only
    rw [if_pos rfl]
    split
    · rename_i after hafter
      rw [hfs] at hafter
      injection hafter with he
      rw [he]
    · rename_i hnone
      rw [hfs] at hnone
      cases hnone
  · rw [removeQuotes.eq_def]
    dsimp only
    rw [if_neg (show ¬ squoteChar = dquoteChar by decide), if_pos rfl]
    split
    · rename_i after hafter
      rw [hfs] at hafter
      injection hafter with he
      rw [he]
    · rename_i hnone
      rw [hfs] at hnone
      cases hnone

theorem removeQuotes_id (l : List Char)
    (h : ∀ c ∈ l, c ≠ dquoteChar ∧ c ≠ squoteChar) : removeQuotes l = l := by
  induction l with
  | nil => exact removeQuotes_nil
  | cons c cs ih =>
    have hc := h c (List.mem_cons_self c cs)
    rw [removeQuotes_keep c cs hc.1 hc.2, ih (fun x hx => h x (List.mem_cons_of_mem c hx))]

theorem removeQuotes_drop_span (pre span post : List Char) (q : Char)
    (hq : q = dquoteChar ∨ q = squoteChar)
    (hpre : ∀ c ∈ pre, c ≠ dquoteChar ∧ c ≠ squoteChar)
    (hspan : q ∉ span) :
    removeQuotes (pre ++ q :: (span ++ q :: post)) = removeQuotes (pre ++ post) := by
  induction pre with
  | nil => simpa using removeQuotes_span q span post hq hspan
  | cons c cs ih =>
    have hc := hpre c (List.mem_cons_self c cs)
    have hcs : ∀ x ∈ cs, x ≠ dquoteChar ∧ x ≠ squoteChar :=
      fun x hx => hpre x (List.mem_cons_of_mem c hx)
    rw [List.cons_append, removeQuotes_keep c _ hc.1 hc.2,
      List.cons_append, removeQuotes_keep c _ hc.1 hc.2, ih hcs]

/-- C7: for every source text in which, after quoted-span removal, either
marker is absent or the start marker occurs at or after the end marker
(first-occurrence indices), cleaning fails with the SyntaxError kind and
tokenization produces no instruction groups. -/
theorem C7_clean_fails (raw : List Char)
    (h : strIndex START_MARKER (removeQuotes raw) = none ∨
      strIndex END_MARKER (removeQuotes raw) = none ∨
      (∀ i j, strIndex START_MARKER (removeQuotes raw) = some i →
        strIndex END_MARKER (removeQuotes raw) = some j → j ≤ i)) :
    clean_code raw = .error .markerError ∧ tokenize raw = .error .markerError := by
  have hm : markerExtract (removeQuotes raw) = .error .markerError := by
    cases hs : strIndex START_MARKER (removeQuotes raw) with
    | none => simp [markerExtract, hs]
    | some i =>
      cases he : strIndex END_MARKER (removeQuotes raw) with
      | none => simp [markerExtract, hs, he]
      | some j =>
        rcases h with h | h | h
        · rw [hs] at h
          cases h
        · rw [he] at h
          cases h
        · have hji := h i j hs he
          have hle : j ≤ i + START_MARKER.length := le_trans hji (Nat.le_add_right i _)
          simp [markerExtract, hs, he, hle]
  exact ⟨hm, by simp [tokenize, clean_code, hm, Except.map]⟩

theorem C7_witness :
    clean_code (END_MARKER ++ START_MARKER) = .error .markerError ∧
    tokenize (END_MARKER ++ START_MARKER) = .error .markerError := by
  apply C7_clean_fails
  rw [removeQuotes_id _ (by decide)]
  right
  right
  intro i j hi hj
  rw [show strIndex START_MARKER (END_MARKER ++ START_MARKER) = some 10 from by decide] at hi
  rw [show strIndex END_MARKER (END_MARKER ++ START_MARKER) = some 0 from by decide] at hj
  injection hi with hi
  injection hj with hj
  omega

/-- C8: a maximal quoted span (single- or double-quoted, newlines allowed)
contributes nothing to tokenization: the instruction-token groups of the
text with the span are exactly those of the text with the span deleted,
so the span's contents appear in no token because the tokens are computed
from the span-free text; and quote removal runs first, over the full raw
text, before marker extraction. -/
theorem C8_quoted_spans (pre span post : List Char) (q : Char)
    (hq : q = dquoteChar ∨ q = squoteChar)
    (hpre : ∀ c ∈ pre, c ≠ dquoteChar ∧ c ≠ squoteChar)
    (hspan : q ∉ span) :
    removeQuotes (pre ++ q :: (span ++ q :: post)) = removeQuotes (pre ++ post) ∧
    tokenize (pre ++ q :: (span ++ q :: post)) = tokenize (pre ++ post) ∧
    ∀ raw, clean_code raw = markerExtract (removeQuotes raw) := by
  have h1 := removeQuotes_drop_span pre span post q hq hpre hspan
  exact ⟨h1, by simp [tokenize, clean_code, h1], fun _ => rfl⟩

theorem C8_witness :
    removeQuotes ("요리 ".data ++ dquoteChar :: ("주석 조려 흑백".data ++ dquoteChar :: " 완성".data)) =
      removeQuotes ("요리 ".data ++ " 완성".data) ∧
    tokenize ("요리 ".data ++ dquoteChar :: ("주석 조려 흑백".data ++ dquoteChar :: " 완성".data)) =
      tokenize ("요리 ".data ++ " 완성".data) ∧
    ∀ raw, clean_code raw = markerExtract (removeQuotes raw) :=
  C8_quoted_spans "요리 ".data "주석 조려 흑백".data " 완성".data dquoteChar
    (Or.inl rfl) (by decide) (by decide)

/-- C9: during line tokenization, an ordinary token whose one-token
lookahead is a suffix keyword closes an in-progress prefix-keyword buffer
as a group and starts a fresh buffer with just the ordinary token (which
the suffix keyword then closes as its own group); otherwise the ordinary
token is appended to the current buffer (and closed into the same group
by the suffix keyword). -/
theorem C9_lookahead (buffer : List String) (t s : String) (rest : List String)
    (ht1 : isSuffixKw t = false) (ht2 : t ≠ PREFIX_KEYWORD) (hs : isSuffixKw s = true) :
    tokLine buffer (t :: s :: rest) =
      if buffer.head? = some PREFIX_KEYWORD then buffer :: [t, s] :: tokLine [] rest
      else (buffer ++ [t, s]) :: tokLine [] rest := by
  simp [tokLine, ht1, ht2, hs, List.append_assoc]

theorem C9_witness :
    tokLine ["나야", "국물"] ["두부", "조려"] =
      if (["나야", "국물"] : List String).head? = some PREFIX_KEYWORD
      then ["나야", "국물"] :: ["두부", "조려"] :: tokLine [] []
      else (["나야", "국물"] ++ ["두부", "조려"]) :: tokLine [] [] :=
  C9_lookahead ["나야", "국물"] "두부" "조려" [] (by decide) (by decide) (by decide)

theorem lookupVar_set (vars : List (String × Int)) (name : String) (v : Int) :
    lookupVar (setVar vars name v) name = some v := by
  simp [lookupVar, setVar, List.find?]

theorem execInst_eq (labels : List (String × Nat)) (ln : String) (tokens : List String)
    (cmd : String) (st : EvalState)
    (hhead : tokens.headD "" ≠ "나야") (hlast : tokens.getLastD "" = cmd) :
    execInst labels ⟨ln, tokens⟩ st = execCmd labels tokens cmd st := by
  show execCmd labels tokens (if tokens.headD "" = "나야" then "나야" else tokens.getLastD "") st = _
  rw [if_neg hhead, hlast]

theorem execInst_eq_naya (labels : List (String × Nat)) (ln : String) (tokens : List String)
    (st : EvalState) (hhead : tokens.headD "" = "나야") :
    execInst labels ⟨ln, tokens⟩ st = execCmd labels tokens "나야" st := by
  show execCmd labels tokens (if tokens.headD "" = "나야" then "나야" else tokens.getLastD "") st = _
  rw [if_pos hhead]

theorem execCmd_op (labels : List (String × Nat)) (tokens : List String) (cmd : String)
    (st : EvalState)
    (hnj : containsSub "조림핑".data cmd.data = false) (hnn : cmd ≠ "나야") :
    execCmd labels tokens cmd st = execOp cmd (parse_subjects (joinSpace tokens.dropLast)) st := by
  simp [execCmd, hnj, hnn]

theorem execCmd_naya (labels : List (String × Nat)) (tokens : List String) (st : EvalState) :
    execCmd labels tokens "나야" st =
      execOp "나야" (parse_subjects (joinSpace (tokens.drop 1))) st := by
  simp [execCmd, show containsSub "조림핑".data ("나야" : String).data = false from by decide]

theorem mapME_ok_cons (f : String → Except CKRErr Int) (a : String) (l : List String)
    (vs : List Int) (h : mapME f (a :: l) = .ok vs) :
    ∃ v vs', f a = .ok v ∧ mapME f l = .ok vs' ∧ vs = v :: vs' := by
  simp only [mapME] at h
  cases hf : f a with
  | error e => rw [hf] at h; cases h
  | ok v =>
    rw [hf] at h
    cases hl : mapME f l with
    | error e => rw [hl] at h; cases h
    | ok vs' =>
      rw [hl] at h
      cases h
      exact ⟨v, vs', rfl, rfl, rfl⟩

theorem printLoop_ok (vars : List (String × Int)) (out : List Nat) (subjects : List String)
    (vs : List Int) (h : mapME (get_val vars) subjects = .ok vs) :
    printLoop vars out subjects = .ok (out ++ vs.map chrOrPlaceholder) := by
  induction subjects generalizing out vs with
  | nil =>
    simp only [mapME] at h
    cases h
    simp [printLoop]
  | cons s rest ih =>
    obtain ⟨v, vs', hf, hl, hveq⟩ := mapME_ok_cons _ _ _ _ h
    subst hveq
    simp [printLoop, hf, ih _ _ hl]

/-- C1 counterexample: a single-subject add instruction on a name that is
neither a constant nor previously written succeeds (the defaultdict store
treats the unwritten target as 0 and writes 1) instead of failing with the
undefined-variable RuntimeError the claim requires for every read context. -/
theorem C1_counterexample :
    CONSTANTS "먹태" = none ∧
    execInst [] ⟨"먹태 조려", ["먹태", "조려"]⟩ ⟨[], [], 0⟩ = .ok ⟨[("먹태", 1)], [], 1⟩ := by
  decide

/-- C1 amended: a read through the resolution path (get_val) of a name
that is neither a constant nor previously written fails with the
undefined-variable RuntimeError; but the single-subject add form (like
single-subject subtract/multiply and negate) bypasses that path, treats
the unwritten target as 0 and succeeds writing 1; and after a declare
instruction on the name, subsequent reads of it return 0. -/
theorem C1_undefined_reads (name : String) (st : EvalState) (labels : List (String × Nat))
    (ln ln2 : String)
    (hc : CONSTANTS name = none) (hv : lookupVar st.vars name = none)
    (hn : name ≠ "나야") (hp : parse_subjects name.data = [name]) :
    get_val st.vars name = .error (.undefinedVariable name) ∧
    (∃ st2, execInst labels ⟨ln, ["나야", name]⟩ st = .ok st2 ∧
      get_val st2.vars name = .ok 0 ∧ st2.output = st.output) ∧
    (∃ st3, execInst labels ⟨ln2, [name, "조려"]⟩ st = .ok st3 ∧
      lookupVar st3.vars name = some 1) := by
  refine ⟨by simp [get_val, hc, hv], ?_, ?_⟩
  · refine ⟨{ st with vars := setVar st.vars name 0, pc := st.pc + 1 }, ?_, ?_, rfl⟩
    · rw [execInst_eq_naya labels ln ["나야", name] st rfl, execCmd_naya]
      show execOp "나야" (parse_subjects name.data) st = _
      rw [hp]
      simp [execOp, declareLoop, hc]
    · simp [get_val, hc, lookupVar_set]
  · refine ⟨{ st with vars := setVar st.vars name (getDefault st.vars name + 1), pc := st.pc + 1 }, ?_, ?_⟩
    · rw [execInst_eq labels ln2 [name, "조려"] "조려" st hn rfl,
        execCmd_op labels _ "조려" st (by decide) (by decide)]
      show execOp "조려" (parse_subjects name.data) st = _
      rw [hp]
      simp [execOp, hc]
    · rw [lookupVar_set]
      simp [getDefault, hv]

theorem C1_witness :
    get_val ([] : List (String × Int)) "먹태" = .error (.undefinedVariable "먹태") ∧
    (∃ st2, execInst [] ⟨"나야 먹태", ["나야", "먹태"]⟩ ⟨[], [], 0⟩ = .ok st2 ∧
      get_val st2.vars "먹태" = .ok 0 ∧ st2.output = ([] : List Nat)) ∧
    (∃ st3, execInst [] ⟨"먹태 조려", ["먹태", "조려"]⟩ ⟨[], [], 0⟩ = .ok st3 ∧
      lookupVar st3.vars "먹태" = some 1) :=
  C1_undefined_reads "먹태" ⟨[], [], 0⟩ [] "나야 먹태" "먹태 조려"
    (by decide) (by decide) (by decide) (by decide)

theorem execCmd_jump (labels : List (String × Nat)) (tokens : List String) (cmd : String)
    (st : EvalState) (comp : String) (subjects : List String) (vs : List Int)
    (hjump : containsSub "조림핑".data cmd.data = true)
    (hlen : 2 ≤ tokens.length)
    (hcomp : tokens.getD (tokens.length - 2) "" = comp)
    (hcv : comp = "조림인간" ∨ comp = "욕망의조림인간")
    (hsubj : parse_subjects (joinSpace tokens.dropLast.dropLast) = subjects)
    (hvs : mapME (get_val st.vars) subjects = .ok vs) :
    execCmd labels tokens cmd st =
      if condMet comp vs then
        match lookupLabel labels (String.mk (removeAllSub "조림핑".data cmd.data)) with
        | none => .err (.missingLabel (String.mk (removeAllSub "조림핑".data cmd.data))) st
        | some k => .ok { st with pc := k }
      else .ok { st with pc := st.pc + 1 } := by
  have hcc : containsSub "조림인간".data comp.data = true := by
    rcases hcv with h | h <;> subst h <;> decide
  have hcond : jumpCond st.vars tokens = .ok (condMet comp vs) := by
    unfold jumpCond
    rw [hcomp, if_pos ⟨hlen, Or.inl hcc⟩, hsubj, hvs]
  simp only [execCmd, hjump, hcond]
  rw [if_pos trivial]

/-- C2 counterexample: a conditional jump whose target label is absent but
whose condition is false does not raise the missing-label RuntimeError:
the program falls through and the run ends normally, contrary to the
claim's "regardless of whether the condition evaluates to true or to
false" (the constant 부들부들 resolves to 0, so 0 > 0 is false, and the
label table is empty). -/
theorem C2_counterexample :
    runFuel [⟨"부들부들 욕망의조림인간 조림핑", ["부들부들", "욕망의조림인간", "조림핑"]⟩] [] 2
        ⟨[], [], 0⟩ = .ok ⟨[], [], 1⟩ ∧
    lookupLabel [] (String.mk (removeAllSub "조림핑".data ("조림핑" : String).data)) = none := by
  decide

/-- C2 amended: a conditional jump whose target label is absent from the
label table raises the missing-label RuntimeError exactly when its
condition evaluates to true; when the condition is false, execution falls
through to the next instruction without error. -/
theorem C2_missing_label (labels : List (String × Nat)) (ln : String) (tokens : List String)
    (cmd : String) (st : EvalState) (comp : String) (subjects : List String) (vs : List Int)
    (hhead : tokens.headD "" ≠ "나야")
    (hlast : tokens.getLastD "" = cmd)
    (hjump : containsSub "조림핑".data cmd.data = true)
    (hlen : 2 ≤ tokens.length)
    (hcomp : tokens.getD (tokens.length - 2) "" = comp)
    (hcv : comp = "조림인간" ∨ comp = "욕망의조림인간")
    (hsubj : parse_subjects (joinSpace tokens.dropLast.dropLast) = subjects)
    (hvs : mapME (get_val st.vars) subjects = .ok vs) :
    (condMet comp vs = true →
      lookupLabel labels (String.mk (removeAllSub "조림핑".data cmd.data)) = none →
      execInst labels ⟨ln, tokens⟩ st =
        .err (.missingLabel (String.mk (removeAllSub "조림핑".data cmd.data))) st) ∧
    (condMet comp vs = false →
      execInst labels ⟨ln, tokens⟩ st = .ok { st with pc := st.pc + 1 }) := by
  have he := execCmd_jump labels tokens cmd st comp subjects vs hjump hlen hcomp hcv hsubj hvs
  rw [execInst_eq labels ln tokens cmd st hhead hlast]
  constructor
  · intro hc hl
    rw [he, if_pos hc, hl]
  · intro hc
    rw [he, if_neg]
    rw [hc]
    simp

theorem C2_witness :
    execInst [] ⟨"두부 조림인간 조림핑쪽", ["두부", "조림인간", "조림핑쪽"]⟩
        ⟨[("두부", 0)], [], 0⟩ =
      .err (.missingLabel (String.mk (removeAllSub "조림핑".data ("조림핑쪽" : String).data)))
        ⟨[("두부", 0)], [], 0⟩ :=
  (C2_missing_label [] "두부 조림인간 조림핑쪽" ["두부", "조림인간", "조림핑쪽"] "조림핑쪽"
      ⟨[("두부", 0)], [], 0⟩ "조림인간" ["두부"] [0]
      (by decide) (by decide) (by decide) (by decide) (by decide) (Or.inl rfl)
      (by decide) (by decide)).1 (by decide) (by decide)

theorem condMet_eq_iff (vs : List Int) :
    condMet "조림인간" vs = true ↔
      (vs.length = 1 ∧ vs.headD 0 = 0) ∨ (2 ≤ vs.length ∧ ∀ v ∈ vs, v = vs.headD 0) := by
  cases vs with
  | nil => simp [condMet]
  | cons v0 vrest =>
    cases vrest with
    | nil => simp [condMet]
    | cons v1 vrest' =>
      simp [condMet, List.all_eq_true]

theorem condMet_gt_iff (vs : List Int) :
    condMet "욕망의조림인간" vs = true ↔
      (vs.length = 1 ∧ 0 < vs.headD 0) ∨ (2 ≤ vs.length ∧ ∀ v ∈ vs.drop 1, v < vs.headD 0) := by
  cases vs with
  | nil => simp [condMet]
  | cons v0 vrest =>
    cases vrest with
    | nil => simp [condMet]
    | cons v1 vrest' =>
      simp [condMet, List.all_eq_true]

/-- C5: for a conditional jump whose subjects resolve to values vs, the
jump transfers control to the label exactly when the comparator condition
holds, and falls through otherwise; the equality-style comparator is true
iff a single value equals 0 or two or more values are all equal to the
first; the greater-than-style comparator is true iff a single value is
positive or the first of two or more values strictly exceeds every other;
and an empty resolved subject list makes the condition false. -/
theorem C5_cond_jump (labels : List (String × Nat)) (ln : String) (tokens : List String)
    (cmd : String) (st : EvalState) (comp : String) (subjects : List String) (vs : List Int)
    (hhead : tokens.headD "" ≠ "나야")
    (hlast : tokens.getLastD "" = cmd)
    (hjump : containsSub "조림핑".data cmd.data = true)
    (hlen : 2 ≤ tokens.length)
    (hcomp : tokens.getD (tokens.length - 2) "" = comp)
    (hcv : comp = "조림인간" ∨ comp = "욕망의조림인간")
    (hsubj : parse_subjects (joinSpace tokens.dropLast.dropLast) = subjects)
    (hvs : mapME (get_val st.vars) subjects = .ok vs) :
    (∀ k, condMet comp vs = true →
      lookupLabel labels (String.mk (removeAllSub "조림핑".data cmd.data)) = some k →
      execInst labels ⟨ln, tokens⟩ st = .ok { st with pc := k }) ∧
    (condMet comp vs = false →
      execInst labels ⟨ln, tokens⟩ st = .ok { st with pc := st.pc + 1 }) ∧
    (condMet "조림인간" vs = true ↔
      (vs.length = 1 ∧ vs.headD 0 = 0) ∨ (2 ≤ vs.length ∧ ∀ v ∈ vs, v = vs.headD 0)) ∧
    (condMet "욕망의조림인간" vs = true ↔
      (vs.length = 1 ∧ 0 < vs.headD 0) ∨ (2 ≤ vs.length ∧ ∀ v ∈ vs.drop 1, v < vs.headD 0)) ∧
    (vs = [] → condMet comp vs = false) := by
  have he := execCmd_jump labels tokens cmd st comp subjects vs hjump hlen hcomp hcv hsubj hvs
  rw [execInst_eq labels ln tokens cmd st hhead hlast]
  refine ⟨?_, ?_, condMet_eq_iff vs, condMet_gt_iff vs, ?_⟩
  · intro k hc hl
    rw [he, if_pos hc, hl]
  · intro hc
    rw [he, if_neg]
    rw [hc]
    simp
  · intro hnil
    subst hnil
    cases hcv with
    | inl h => subst h; rfl
    | inr h => subst h; rfl

theorem C5_witness :
    execInst [("", 3)] ⟨"두부 조림인간 조림핑", ["두부", "조림인간", "조림핑"]⟩
        ⟨[("두부", 0)], [], 0⟩ = .ok ⟨[("두부", 0)], [], 3⟩ :=
  (C5_cond_jump [("", 3)] "두부 조림인간 조림핑" ["두부", "조림인간", "조림핑"] "조림핑"
      ⟨[("두부", 0)], [], 0⟩ "조림인간" ["두부"] [0]
      (by decide) (by decide) (by decide) (by decide) (by decide) (Or.inl rfl)
      (by decide) (by decide)).1 3 (by decide) (by decide)

/-- The spec's fixed unit rule for single-subject arithmetic: +1 for add,
−1 for subtract, ×2 for multiply. Stated from the spec's words, to be
compared with the execution of the corresponding instruction. -/
def specUnitRule (cmd : String) (v : Int) : Int :=
  if cmd = "조려" then v + 1 else if cmd = "조린다" then v - 1 else v * 2

/-- The spec's documented fold for multi-subject arithmetic: the sum of
all resolved values for add, the first minus the sum of the rest for
subtract, the product of all for multiply. Stated from the spec's words. -/
def specFold (cmd : String) (vs : List Int) : Int :=
  if cmd = "조려" then vs.foldl (· + ·) 0
  else if cmd = "조린다" then vs.headD 0 - (vs.drop 1).foldl (· + ·) 0
  else vs.foldl (· * ·) 1

/-- C3 counterexample: a declare instruction whose second subject is a
constant raises the constant RuntimeError only after already writing 0
over the first subject, so the store at the raise point differs from the
store before the instruction, contrary to the claim that no instruction
executes partially. -/
theorem C3_counterexample :
    execInst [] ⟨"나야 먹태, 부들부들", ["나야", "먹태,", "부들부들"]⟩ ⟨[("먹태", 5)], [], 0⟩ =
      .err (.constantError "부들부들") ⟨[("먹태", 0), ("먹태", 5)], [], 0⟩ ∧
    lookupVar [("먹태", 0), ("먹태", 5)] "먹태" ≠ lookupVar [("먹태", 5)] "먹태" := by
  decide

/-- C3 amended: multi-subject add, subtract and multiply resolve all of
their reads before their single write, so a failing read raises with the
variable store, output and program counter exactly as they were before
the instruction; but declare, negate and print apply their per-subject
effects left to right, and effects on earlier subjects persist when a
later subject fails (counterexample above). -/
theorem C3_atomic_arith (labels : List (String × Nat)) (ln : String) (tokens : List String)
    (cmd : String) (s0 : String) (rest : List String) (e : CKRErr) (st : EvalState)
    (hcmd : cmd = "조려" ∨ cmd = "조린다" ∨ cmd = "조리고")
    (hhead : tokens.headD "" ≠ "나야")
    (hlast : tokens.getLastD "" = cmd)
    (hsubj : parse_subjects (joinSpace tokens.dropLast) = s0 :: rest)
    (hrest : rest ≠ [])
    (hconst : CONSTANTS s0 = none)
    (herr : mapME (get_val st.vars) (s0 :: rest) = .error e) :
    execInst labels ⟨ln, tokens⟩ st = .err e st := by
  have hnj : containsSub "조림핑".data cmd.data = false := by
    rcases hcmd with h | h | h <;> subst h <;> decide
  have hnn : cmd ≠ "나야" := by
    rcases hcmd with h | h | h <;> subst h <;> decide
  rw [execInst_eq labels ln tokens cmd st hhead hlast, execCmd_op labels tokens cmd st hnj hnn,
    hsubj]
  have hsplit : get_val st.vars s0 = .error e ∨
      ∃ v, get_val st.vars s0 = .ok v ∧ mapME (get_val st.vars) rest = .error e := by
    simp only [mapME] at herr
    cases hf : get_val st.vars s0 with
    | error e0 =>
      rw [hf] at herr
      cases herr
      exact Or.inl rfl
    | ok v =>
      rw [hf] at herr
      cases hl : mapME (get_val st.vars) rest with
      | error e1 =>
        rw [hl] at herr
        cases herr
        exact Or.inr ⟨v, rfl, rfl⟩
      | ok vs => rw [hl] at herr; cases herr
  rcases hcmd with h | h | h <;> subst h
  · simp [execOp, hconst, hrest, herr]
  · rcases hsplit with hf | ⟨v, hf, hl⟩
    · simp [execOp, hconst, hrest, hf]
    · simp [execOp, hconst, hrest, hf, hl]
  · simp [execOp, hconst, hrest, herr]

theorem C3_witness :
    execInst [] ⟨"민물장어, 두부 조려", ["민물장어,", "두부", "조려"]⟩ ⟨[("민물장어", 3)], [], 0⟩ =
      .err (.undefinedVariable "두부") ⟨[("민물장어", 3)], [], 0⟩ :=
  C3_atomic_arith [] "민물장어, 두부 조려" ["민물장어,", "두부", "조려"] "조려" "민물장어" ["두부"]
    (.undefinedVariable "두부") ⟨[("민물장어", 3)], [], 0⟩
    (Or.inl rfl) (by decide) (by decide) (by decide) (by decide) (by decide) (by decide)

/-- C4: an add, subtract or multiply instruction with exactly one subject
whose target is mutable changes the subject by the fixed unit rule
(+1, −1, ×2) regardless of its current value; with two or more subjects,
all of which resolve (and a mutable first subject, the write target), the
first subject is assigned the documented fold: sum of all values for add,
first minus the sum of the rest for subtract, product of all for
multiply. -/
theorem C4_arith (labels : List (String × Nat)) (ln : String) (tokens : List String)
    (cmd : String) (subjects : List String) (st : EvalState)
    (hcmd : cmd = "조려" ∨ cmd = "조린다" ∨ cmd = "조리고")
    (hhead : tokens.headD "" ≠ "나야")
    (hlast : tokens.getLastD "" = cmd)
    (hsubj : parse_subjects (joinSpace tokens.dropLast) = subjects) :
    (∀ t, subjects = [t] → CONSTANTS t = none →
      execInst labels ⟨ln, tokens⟩ st =
        .ok { st with
                vars := setVar st.vars t (specUnitRule cmd (getDefault st.vars t)),
                pc := st.pc + 1 }) ∧
    (∀ vs, 2 ≤ subjects.length → CONSTANTS (subjects.headD "") = none →
      mapME (get_val st.vars) subjects = .ok vs →
      execInst labels ⟨ln, tokens⟩ st =
        .ok { st with
                vars := setVar st.vars (subjects.headD "") (specFold cmd vs),
                pc := st.pc + 1 }) := by
  have hnj : containsSub "조림핑".data cmd.data = false := by
    rcases hcmd with h | h | h <;> subst h <;> decide
  have hnn : cmd ≠ "나야" := by
    rcases hcmd with h | h | h <;> subst h <;> decide
  have hi : execInst labels ⟨ln, tokens⟩ st = execOp cmd subjects st := by
    rw [execInst_eq labels ln tokens cmd st hhead hlast,
      execCmd_op labels tokens cmd st hnj hnn, hsubj]
  constructor
  · intro t hst hconst
    subst hst
    rcases hcmd with h | h | h <;> subst h <;>
      simp [hi, execOp, hconst, specUnitRule]
  · intro vs hlen hconst hvs
    obtain ⟨s0, rest, hsr⟩ : ∃ s0 rest, subjects = s0 :: rest := by
      cases subjects with
      | nil => simp at hlen
      | cons a l => exact ⟨a, l, rfl⟩
    subst hsr
    have hrest : rest ≠ [] := by
      cases rest with
      | nil => simp at hlen
      | cons b l => simp
    simp only [List.headD_cons] at hconst ⊢
    rcases hcmd with h | h | h <;> subst h
    · simp [hi, execOp, hconst, hrest, hvs, specFold]
    · obtain ⟨v, vs', hf, hl, hveq⟩ := mapME_ok_cons _ _ _ _ hvs
      subst hveq
      simp [hi, execOp, hconst, hrest, hf, hl, specFold]
    · simp [hi, execOp, hconst, hrest, hvs, specFold]

theorem C4_witness :
    execInst [] ⟨"민물장어 조려", ["민물장어", "조려"]⟩ ⟨[("민물장어", 5)], [], 0⟩ =
      .ok ⟨[("민물장어", 6), ("민물장어", 5)], [], 1⟩ ∧
    execInst [] ⟨"쌀, 두부, 버섯 조리고", ["쌀,", "두부,", "버섯", "조리고"]⟩
        ⟨[("쌀", 2), ("두부", 3), ("버섯", 4)], [], 0⟩ =
      .ok ⟨[("쌀", 24), ("쌀", 2), ("두부", 3), ("버섯", 4)], [], 1⟩ :=
  ⟨(C4_arith [] "민물장어 조려" ["민물장어", "조려"] "조려" ["민물장어"] ⟨[("민물장어", 5)], [], 0⟩
      (Or.inl rfl) (by decide) (by decide) (by decide)).1 "민물장어" rfl (by decide),
    (C4_arith [] "쌀, 두부, 버섯 조리고" ["쌀,", "두부,", "버섯", "조리고"] "조리고"
      ["쌀", "두부", "버섯"] ⟨[("쌀", 2), ("두부", 3), ("버섯", 4)], [], 0⟩
      (Or.inr (Or.inr rfl)) (by decide) (by decide) (by decide)).2 [2, 3, 4]
      (by decide) (by decide) (by decide)⟩

/-- C6: a print instruction whose subjects all resolve emits, in
subject-list order with no separator, the code point of each resolved
value, mutating no variable; a value outside 0..1114111 (every negative
value included) emits the placeholder code point 63 instead, and a value
inside the range emits the value itself, without aborting the run. -/
theorem C6_print (labels : List (String × Nat)) (ln : String) (tokens : List String)
    (subjects : List String) (vs : List Int) (st : EvalState)
    (hhead : tokens.headD "" ≠ "나야")
    (hlast : tokens.getLastD "" = "을")
    (hsubj : parse_subjects (joinSpace tokens.dropLast) = subjects)
    (hvs : mapME (get_val st.vars) subjects = .ok vs) :
    execInst labels ⟨ln, tokens⟩ st =
      .ok { st with output := st.output ++ vs.map chrOrPlaceholder, pc := st.pc + 1 } ∧
    (∀ v : Int, v < 0 ∨ 1114111 < v → chrOrPlaceholder v = 63) ∧
    (∀ v : Int, 0 ≤ v → v ≤ 1114111 → chrOrPlaceholder v = v.toNat) := by
  refine ⟨?_, ?_, ?_⟩
  · rw [execInst_eq labels ln tokens "을" st hhead hlast,
      execCmd_op labels tokens "을" st (by decide) (by decide), hsubj]
    simp [execOp, printLoop_ok st.vars st.output subjects vs hvs]
  · intro v hv
    rw [chrOrPlaceholder, if_neg]
    omega
  · intro v h1 h2
    rw [chrOrPlaceholder, if_pos ⟨h1, h2⟩]

theorem C6_witness :
    execInst [] ⟨"부들부들, 뾰족뾰족 을", ["부들부들,", "뾰족뾰족", "을"]⟩ ⟨[], [], 0⟩ =
      .ok ⟨[], [0, 63], 1⟩ ∧ chrOrPlaceholder (-1) = 63 := by
  have h := C6_print [] "부들부들, 뾰족뾰족 을" ["부들부들,", "뾰족뾰족", "을"]
    ["부들부들", "뾰족뾰족"] [0, -1] ⟨[], [], 0⟩ (by decide) (by decide) (by decide) (by decide)
  exact ⟨h.1, h.2.1 (-1) (by omega)⟩

/-- Shape of the program counter after one instruction: on success it is
the old counter plus one or a label-table value; on error it is
unchanged. -/
def pcSpec (labels : List (String × Nat)) (st : EvalState) : ExecResult → Prop
  | .ok st2 => st2.pc = st.pc + 1 ∨ ∃ name k, lookupLabel labels name = some k ∧ st2.pc = k
  | .err _ st2 => st2.pc = st.pc

theorem execOp_pcSpec (labels : List (String × Nat)) (cmd : String) (subjects : List String)
    (st : EvalState) : pcSpec labels st (execOp cmd subjects st) := by
  unfold execOp
  repeat' split
  all_goals simp [pcSpec]

theorem execCmd_pcSpec (labels : List (String × Nat)) (tokens : List String) (cmd : String)
    (st : EvalState) : pcSpec labels st (execCmd labels tokens cmd st) := by
  unfold execCmd
  split
  · split
    · simp [pcSpec]
    · split
      · split
        · simp [pcSpec]
        · rename_i k hk
          exact Or.inr ⟨_, k, hk, rfl⟩
      · simp [pcSpec]
  · exact execOp_pcSpec labels _ _ st

theorem execInst_pcSpec (labels : List (String × Nat)) (inst : Inst) (st : EvalState) :
    pcSpec labels st (execInst labels inst st) := by
  unfold execInst
  exact execCmd_pcSpec labels _ _ st

theorem parseAux_mono (gs : List (List String)) (insts : List Inst)
    (labels : List (String × Nat)) :
    insts.length ≤ (parseAux gs insts labels).1.length := by
  induction gs generalizing insts labels with
  | nil => simp [parseAux]
  | cons g rest ih =>
    cases g with
    | nil => simpa [parseAux] using ih insts labels
    | cons t0 ts =>
      simp only [parseAux]
      split
      · exact ih insts _
      · exact le_trans (by simp) (ih (insts ++ [⟨String.mk (joinSpace (t0 :: ts)), t0 :: ts⟩]) labels)

theorem parseAux_labels_le (gs : List (List String)) (insts : List Inst)
    (labels : List (String × Nat))
    (h : ∀ p ∈ labels, p.2 ≤ insts.length) :
    ∀ p ∈ (parseAux gs insts labels).2, p.2 ≤ (parseAux gs insts labels).1.length := by
  induction gs generalizing insts labels with
  | nil =>
    intro p hp
    simp only [parseAux] at hp ⊢
    exact h p hp
  | cons g rest ih =>
    cases g with
    | nil =>
      intro p hp
      simp only [parseAux] at hp ⊢
      exact ih insts labels h p hp
    | cons t0 ts =>
      simp only [parseAux]
      split
      · apply ih
        intro p hp
        rcases List.mem_cons.mp hp with rfl | hmem
        · exact le_refl _
        · exact h p hmem
      · apply ih
        intro p hp
        have := h p hp
        simp only [List.length_append, List.length_cons, List.length_nil]
        omega

theorem lookupLabel_bound (labels : List (String × Nat)) (n : Nat)
    (h : ∀ p ∈ labels, p.2 ≤ n) (name : String) (k : Nat)
    (hk : lookupLabel labels name = some k) : k ≤ n := by
  cases hf : labels.find? (fun p => p.1 = name) with
  | none => simp [lookupLabel, hf] at hk
  | some p =>
    simp only [lookupLabel, hf, Option.map_some] at hk
    injection hk with hk
    exact hk ▸ h p (List.mem_of_find?_eq_some hf)

theorem runFuel_pc_le (insts : List Inst) (labels : List (String × Nat))
    (hlab : ∀ p ∈ labels, p.2 ≤ insts.length) :
    ∀ fuel (st : EvalState), st.pc ≤ insts.length →
      (runFuel insts labels fuel st).state.pc ≤ insts.length := by
  intro fuel
  induction fuel with
  | zero =>
    intro st h
    simpa [runFuel, RunResult.state] using h
  | succ n ih =>
    intro st h
    simp only [runFuel]
    split
    · rename_i hlt
      have hps := execInst_pcSpec labels insts[st.pc] st
      cases hex : execInst labels insts[st.pc] st with
      | err e st2 =>
        rw [hex] at hps
        simp only [pcSpec] at hps
        simp only [hex, RunResult.state]
        omega
      | ok st2 =>
        rw [hex] at hps
        simp only [pcSpec] at hps
        simp only [hex]
        apply ih
        rcases hps with hps | ⟨name, k, hk, hps⟩
        · omega
        · have := lookupLabel_bound labels insts.length hlab name k hk
          omega
    · simpa [RunResult.state] using h

/-- C10: every label-table value produced by the parser lies between 0
and the instruction count inclusive; from any in-range state the program
counter stays within that range throughout a run (so a taken jump never
causes an instruction fetch at an out-of-range index); and a program
counter equal to the instruction count terminates the run at once. -/
theorem C10_pc_bounds (groups : List (List String)) (fuel : Nat) :
    (∀ p ∈ (parse groups).2, p.2 ≤ (parse groups).1.length) ∧
    (∀ st : EvalState, st.pc ≤ (parse groups).1.length →
      (runFuel (parse groups).1 (parse groups).2 fuel st).state.pc ≤ (parse groups).1.length) ∧
    (∀ st : EvalState, st.pc = (parse groups).1.length →
      runFuel (parse groups).1 (parse groups).2 (fuel + 1) st = .ok st) := by
  have hlab : ∀ p ∈ (parse groups).2, p.2 ≤ (parse groups).1.length :=
    parseAux_labels_le groups [] [] (by simp)
  refine ⟨hlab, fun st h => runFuel_pc_le _ _ hlab fuel st h, fun st h => ?_⟩
  simp only [runFuel]
  rw [dif_neg]
  omega

theorem C10_witness :
    (∀ p ∈ (parse [["연쇄조림마쪽"], ["먹태", "조려"]]).2,
      p.2 ≤ (parse [["연쇄조림마쪽"], ["먹태", "조려"]]).1.length) ∧
    ((runFuel (parse [["연쇄조림마쪽"], ["먹태", "조려"]]).1
        (parse [["연쇄조림마쪽"], ["먹태", "조려"]]).2 3 ⟨[], [], 0⟩).state.pc ≤
      (parse [["연쇄조림마쪽"], ["먹태", "조려"]]).1.length) ∧
    (runFuel (parse [["연쇄조림마쪽"], ["먹태", "조려"]]).1
        (parse [["연쇄조림마쪽"], ["먹태", "조려"]]).2 4 ⟨[], [], 1⟩ = .ok ⟨[], [], 1⟩) := by
  have h := C10_pc_bounds [["연쇄조림마쪽"], ["먹태", "조려"]] 3
  exact ⟨h.1, h.2.1 ⟨[], [], 0⟩ (by decide), h.2.2 ⟨[], [], 1⟩ (by decide)⟩
